import Mathlib

/-!
Verification development for `PortScanner.py`.

The concurrent scan pool (`worker` and `port_scanner`) is embedded as a labelled
transition system over `PoolState`: `port_queue` and `output_queue` are lists,
each worker thread is a `WStatus`, and every atomic action of the Python code
(the `queue.empty()` check, the `queue.get()` call, one `scan_port` call
followed by `task_done()`) is one step of `PoolStep`.  The per-port probe is a
deterministic oracle `isOpen : Nat → Bool` standing for the outcome of
`sock.connect_ex((host, port)) == 0` for the host under scan.  The sequential
collaborators (`scan_port`, `get_host_info`, `is_host_online`,
`get_threads_count`, `scan_from_file`) are embedded as pure functions, with
`Except` modelling Python exception propagation and explicit oracles modelling
the network.
-/

namespace PortScanner

/-- Status of one worker thread executing `worker`:
`idle` is about to evaluate `queue.empty()` at the top of the loop;
`committed` observed the queue non-empty and is about to call `queue.get()`;
`busy p` has dequeued port `p` and is executing `scan_port` (up to and
including its `task_done()`);
`blocked` called the blocking `queue.get()` on an empty queue — since nothing
is ever put after start-up, it blocks forever;
`exited` observed the queue empty and returned. -/
inductive WStatus where
  | idle
  | committed
  | blocked
  | exited
  | busy (port : Nat)
deriving DecidableEq, Repr

/-- Shared state of one `port_scanner` invocation: the contents of
`port_queue`, the status of every worker thread, the list of ports already
handed to `scan_port` (in dispatch order), and the contents of
`output_queue`. -/
structure PoolState where
  queue : List Nat
  workers : List WStatus
  probed : List Nat
  output : List Nat
deriving DecidableEq, Repr

/-- The ports put on `port_queue`, i.e. Python `range(start_port, end_port + 1)`
(empty when `start_port > end_port`). -/
def portRange (start_port end_port : Nat) : List Nat :=
  List.range' start_port (end_port + 1 - start_port)

/-- State of `port_scanner` right after filling `port_queue` and starting the
worker threads.  Python `for _ in range(num_threads)` starts no thread when
`num_threads <= 0`, hence `Int.toNat`. -/
def initPool (start_port end_port : Nat) (num_threads : Int) : PoolState :=
  ⟨portRange start_port end_port, List.replicate num_threads.toNat WStatus.idle, [], []⟩

/-- One interleaved atomic action of some worker thread.  A worker is chosen by
splitting the worker list as `l₁ ++ w :: l₂`.  The probe oracle `isOpen`
decides `sock.connect_ex((host, port)) == 0` for the current host. -/
inductive PoolStep (isOpen : Nat → Bool) : PoolState → PoolState → Prop
  | check_nonempty (s : PoolState) (l₁ l₂ : List WStatus)
      (hw : s.workers = l₁ ++ WStatus.idle :: l₂) (hq : s.queue ≠ []) :
      PoolStep isOpen s { s with workers := l₁ ++ WStatus.committed :: l₂ }
  | check_empty (s : PoolState) (l₁ l₂ : List WStatus)
      (hw : s.workers = l₁ ++ WStatus.idle :: l₂) (hq : s.queue = []) :
      PoolStep isOpen s { s with workers := l₁ ++ WStatus.exited :: l₂ }
  | get_ok (s : PoolState) (l₁ l₂ : List WStatus) (p : Nat) (rest : List Nat)
      (hw : s.workers = l₁ ++ WStatus.committed :: l₂) (hq : s.queue = p :: rest) :
      PoolStep isOpen s { s with queue := rest, workers := l₁ ++ WStatus.busy p :: l₂ }
  | get_block (s : PoolState) (l₁ l₂ : List WStatus)
      (hw : s.workers = l₁ ++ WStatus.committed :: l₂) (hq : s.queue = []) :
      PoolStep isOpen s { s with workers := l₁ ++ WStatus.blocked :: l₂ }
  | scan (s : PoolState) (l₁ l₂ : List WStatus) (p : Nat)
      (hw : s.workers = l₁ ++ WStatus.busy p :: l₂) :
      PoolStep isOpen s { s with workers := l₁ ++ WStatus.idle :: l₂,
                                 probed := s.probed ++ [p],
                                 output := s.output ++ if isOpen p then [p] else [] }

/-- Interleaved executions of the pool: reflexive-transitive closure of
`PoolStep`. -/
def Reachable (isOpen : Nat → Bool) : PoolState → PoolState → Prop :=
  Relation.ReflTransGen (PoolStep isOpen)

/-- A worker that is not holding a claimed-but-unfinished work unit. -/
def notBusy : WStatus → Bool
  | WStatus.busy _ => false
  | _ => true

/-- `port_queue.join()` returns exactly when every queued port has been taken
and matched by `task_done()`: the queue is empty and no worker sits between
`get()` and `task_done()`. -/
def joinReady (s : PoolState) : Bool :=
  s.queue.isEmpty && s.workers.all notBusy

/-- The list `open_ports` that `port_scanner` drains from `output_queue` after
the join and returns. -/
def scanResult (s : PoolState) : List Nat :=
  s.output

/-- Invariant of the pool: for every port, the occurrences already probed, the
occurrences still queued and the occurrences claimed by a busy worker add up to
the occurrences initially queued; and `output_queue` holds exactly the probed
ports that the probe reported open, in dispatch order. -/
def PoolInv (isOpen : Nat → Bool) (initPorts : List Nat) (s : PoolState) : Prop :=
  (∀ p, s.probed.count p + s.queue.count p + s.workers.count (WStatus.busy p)
      = initPorts.count p)
  ∧ s.output = s.probed.filter isOpen

theorem poolInv_init (isOpen : Nat → Bool) (start_port end_port : Nat) (num_threads : Int) :
    PoolInv isOpen (portRange start_port end_port) (initPool start_port end_port num_threads) := by
  refine ⟨fun p => ?_, rfl⟩
  have hnb : WStatus.busy p ∉ List.replicate num_threads.toNat WStatus.idle := by
    simp [List.mem_replicate]
  simp [initPool, List.count_eq_zero.mpr hnb]

theorem poolInv_step {isOpen : Nat → Bool} {initPorts : List Nat} {s t : PoolState}
    (hstep : PoolStep isOpen s t) (hinv : PoolInv isOpen initPorts s) :
    PoolInv isOpen initPorts t := by
  obtain ⟨hcount, hout⟩ := hinv
  cases hstep with
  | check_nonempty l₁ l₂ hw hq =>
      refine ⟨fun p => ?_, hout⟩
      have h := hcount p
      simp [hw, List.count_append, List.count_cons, beq_iff_eq] at h ⊢
      omega
  | check_empty l₁ l₂ hw hq =>
      refine ⟨fun p => ?_, hout⟩
      have h := hcount p
      simp [hw, List.count_append, List.count_cons, beq_iff_eq] at h ⊢
      omega
  | get_ok l₁ l₂ q rest hw hq =>
      refine ⟨fun p => ?_, hout⟩
      have h := hcount p
      by_cases hpq : p = q
      · subst hpq
        simp [hw, hq, List.count_append, List.count_cons, beq_iff_eq] at h ⊢
        omega
      · simp [hw, hq, List.count_append, List.count_cons, beq_iff_eq, hpq] at h ⊢
        omega
  | get_block l₁ l₂ hw hq =>
      refine ⟨fun p => ?_, hout⟩
      have h := hcount p
      simp [hw, List.count_append, List.count_cons, beq_iff_eq] at h ⊢
      omega
  | scan l₁ l₂ q hw =>
      constructor
      · intro p
        have h := hcount p
        by_cases hpq : p = q
        · subst hpq
          simp [hw, List.count_append, List.count_cons, beq_iff_eq] at h ⊢
          omega
        · simp [hw, List.count_append, List.count_cons, beq_iff_eq, hpq] at h ⊢
          omega
      · show s.output ++ (if isOpen q then [q] else []) = (s.probed ++ [q]).filter isOpen
        rw [List.filter_append, hout]
        cases hoq : isOpen q <;> simp [List.filter_cons, hoq]

theorem reach_poolInv {isOpen : Nat → Bool} {initPorts : List Nat} {s₀ s : PoolState}
    (hreach : Relation.ReflTransGen (PoolStep isOpen) s₀ s)
    (h₀ : PoolInv isOpen initPorts s₀) : PoolInv isOpen initPorts s := by
  induction hreach with
  | refl => exact h₀
  | tail _ hstep ih => exact poolInv_step hstep ih

theorem joinReady_queue_nil {s : PoolState} (h : joinReady s = true) : s.queue = [] := by
  have := (Bool.and_eq_true _ _).mp h |>.1
  exact List.isEmpty_iff.mp this

theorem joinReady_busy_count {s : PoolState} (h : joinReady s = true) (p : Nat) :
    s.workers.count (WStatus.busy p) = 0 := by
  have hall := (Bool.and_eq_true _ _).mp h |>.2
  refine List.count_eq_zero.mpr fun hmem => ?_
  have := List.all_eq_true.mp hall _ hmem
  simp [notBusy] at this

/-- Once `port_queue.join()` is able to return, the multiset of ports handed to
`scan_port` equals the multiset initially queued, and `output_queue` holds the
probed ports that the probe observed open. -/
theorem join_spec {isOpen : Nat → Bool} {start_port end_port : Nat} {num_threads : Int}
    {s : PoolState}
    (hreach : Reachable isOpen (initPool start_port end_port num_threads) s)
    (hjoin : joinReady s = true) :
    (∀ p, s.probed.count p = (portRange start_port end_port).count p)
    ∧ s.output = s.probed.filter isOpen := by
  have hinv := reach_poolInv hreach (poolInv_init isOpen start_port end_port num_threads)
  refine ⟨fun p => ?_, hinv.2⟩
  have h := hinv.1 p
  rw [joinReady_queue_nil hjoin, joinReady_busy_count hjoin] at h
  simpa using h

theorem portRange_count (a b p : Nat) :
    (portRange a b).count p = if a ≤ p ∧ p ≤ b then 1 else 0 := by
  by_cases hmem : p ∈ portRange a b
  · have hnd : (portRange a b).Nodup := by
      unfold portRange
      exact List.nodup_range' _ _
    have hle := List.mem_range'_1.mp hmem
    rw [List.count_eq_one_of_mem hnd hmem, if_pos]
    omega
  · rw [List.count_eq_zero_of_not_mem hmem, if_neg]
    intro hpb
    exact hmem (List.mem_range'_1.mpr ⟨hpb.1, by omega⟩)

/-- One pass of the input loop in `get_threads_count`.  `threads` is the input
line after Python `.strip()`, and `intResult` is the outcome of `int(threads)`
(`none` models the `ValueError` branch, which prints an error and re-prompts).
An empty line returns the default 100; otherwise whatever integer `int`
produced is returned — the source has no positivity check. -/
def get_threads_count (threads : String) (intResult : Option Int) : Option Int :=
  if threads = "" then some 100
  else intResult

theorem poolStep_workers_ne_nil {isOpen : Nat → Bool} {s t : PoolState}
    (h : PoolStep isOpen s t) : s.workers ≠ [] := by
  cases h <;> simp_all

theorem reach_no_workers {isOpen : Nat → Bool} {s₀ s : PoolState}
    (hreach : Relation.ReflTransGen (PoolStep isOpen) s₀ s)
    (hw : s₀.workers = []) : s = s₀ := by
  induction hreach with
  | refl => rfl
  | tail _ hstep ih =>
      rw [ih] at hstep
      exact absurd hw (poolStep_workers_ne_nil hstep)

/-- C1: the invalid concurrency is NOT rejected — `get_threads_count` returns
`0` (or a negative value) unchanged, and `port_scanner` with `num_threads = 0`
on a non-empty range (here ports `1..1`) launches no worker: the initial state
is the only reachable one, `joinReady` never holds (so `port_queue.join()`
blocks forever), and no probe is ever made.  This contradicts the spec, which
requires a fail-fast rejection before any probe. -/
theorem zero_threads_accepted_and_pool_hangs
    (isOpen : Nat → Bool) (s : PoolState)
    (hreach : Reachable isOpen (initPool 1 1 0) s) :
    get_threads_count "0" (some 0) = some 0 ∧
    get_threads_count "-5" (some (-5)) = some (-5) ∧
    s = initPool 1 1 0 ∧
    joinReady s = false ∧
    s.probed = [] := by
  have hs : s = initPool 1 1 0 := reach_no_workers hreach rfl
  subst hs
  exact ⟨by decide, by decide, rfl, by decide, rfl⟩

/-- Witness for C1, taken at the (only reachable) initial state. -/
theorem zero_threads_accepted_and_pool_hangs_witness :
    get_threads_count "0" (some 0) = some 0 ∧
    get_threads_count "-5" (some (-5)) = some (-5) ∧
    initPool 1 1 0 = initPool 1 1 0 ∧
    joinReady (initPool 1 1 0) = false ∧
    (initPool 1 1 0).probed = [] :=
  zero_threads_accepted_and_pool_hangs (fun _ => true) (initPool 1 1 0)
    Relation.ReflTransGen.refl

/-- C2: in any interleaved execution of the pool in which `port_queue.join()`
can return, every port of `[start_port, end_port]` has been handed to
`scan_port` exactly once, and no port outside the range was ever probed. -/
theorem port_scanner_probes_each_port_exactly_once
    (isOpen : Nat → Bool) (start_port end_port : Nat) (num_threads : Int) (s : PoolState)
    (_hlo : 1 ≤ start_port) (_hhi : start_port ≤ end_port)
    (hreach : Reachable isOpen (initPool start_port end_port num_threads) s)
    (hjoin : joinReady s = true) :
    ∀ p : Nat, s.probed.count p = if start_port ≤ p ∧ p ≤ end_port then 1 else 0 := by
  intro p
  rw [(join_spec hreach hjoin).1 p, portRange_count]

/-- Probe oracle reporting every port open. -/
def alwaysOpen : Nat → Bool := fun _ => true

/-- Probe oracle reporting only port 2 open. -/
def openOnly2 : Nat → Bool := fun p => p == 2

/-- Witness for C2: a concrete complete execution scanning port range `1..1`
with one worker. -/
theorem port_scanner_probes_each_port_exactly_once_witness :
    (PoolState.mk [] [WStatus.exited] [1] [1]).probed.count 1 = 1 ∧
    (PoolState.mk [] [WStatus.exited] [1] [1]).probed.count 2 = 0 := by
  have e1 : PoolStep alwaysOpen (initPool 1 1 1) ⟨[1], [WStatus.committed], [], []⟩ :=
    PoolStep.check_nonempty _ [] [] rfl (by decide)
  have e2 : PoolStep alwaysOpen ⟨[1], [WStatus.committed], [], []⟩
      ⟨[], [WStatus.busy 1], [], []⟩ :=
    PoolStep.get_ok _ [] [] 1 [] rfl rfl
  have e3 : PoolStep alwaysOpen ⟨[], [WStatus.busy 1], [], []⟩
      ⟨[], [WStatus.idle], [1], [1]⟩ :=
    PoolStep.scan _ [] [] 1 rfl
  have e4 : PoolStep alwaysOpen ⟨[], [WStatus.idle], [1], [1]⟩
      ⟨[], [WStatus.exited], [1], [1]⟩ :=
    PoolStep.check_empty _ [] [] rfl rfl
  have hreach : Reachable alwaysOpen (initPool 1 1 1) ⟨[], [WStatus.exited], [1], [1]⟩ :=
    (((Relation.ReflTransGen.refl.tail e1).tail e2).tail e3).tail e4
  have h := port_scanner_probes_each_port_exactly_once alwaysOpen 1 1 1
    ⟨[], [WStatus.exited], [1], [1]⟩ (by decide) (by decide) hreach (by decide)
  exact ⟨by simpa using h 1, by simpa using h 2⟩

/-- C3: once the join can return, the drained `open_ports` collection has no
duplicate and holds exactly the in-range ports the probe observed open. -/
theorem port_scanner_result_exactly_open_ports
    (isOpen : Nat → Bool) (start_port end_port : Nat) (num_threads : Int) (s : PoolState)
    (_hlo : 1 ≤ start_port) (_hhi : start_port ≤ end_port)
    (hreach : Reachable isOpen (initPool start_port end_port num_threads) s)
    (hjoin : joinReady s = true) :
    (scanResult s).Nodup ∧
    ∀ p, p ∈ scanResult s ↔ (start_port ≤ p ∧ p ≤ end_port ∧ isOpen p = true) := by
  obtain ⟨hcnt, hout⟩ := join_spec hreach hjoin
  have hnodup : s.probed.Nodup := by
    rw [List.nodup_iff_count_le_one]
    intro p
    rw [hcnt p, portRange_count]
    split <;> omega
  have hmem : ∀ p, p ∈ s.probed ↔ (start_port ≤ p ∧ p ≤ end_port) := by
    intro p
    rw [← List.count_pos_iff, hcnt p, portRange_count]
    split <;> simp_all
  constructor
  · show s.output.Nodup
    rw [hout]
    exact hnodup.filter _
  · intro p
    show p ∈ s.output ↔ _
    rw [hout, List.mem_filter, hmem p]
    tauto

/-- Witness for C3: a concrete complete execution scanning range `1..2` with
one worker, only port 2 open; the result is exactly `[2]`. -/
theorem port_scanner_result_exactly_open_ports_witness :
    (scanResult ⟨[], [WStatus.exited], [1, 2], [2]⟩).Nodup ∧
    (2 ∈ scanResult ⟨[], [WStatus.exited], [1, 2], [2]⟩ ↔
      (1 ≤ 2 ∧ 2 ≤ 2 ∧ openOnly2 2 = true)) := by
  have e1 : PoolStep openOnly2 (initPool 1 2 1) ⟨[1, 2], [WStatus.committed], [], []⟩ :=
    PoolStep.check_nonempty _ [] [] rfl (by decide)
  have e2 : PoolStep openOnly2 ⟨[1, 2], [WStatus.committed], [], []⟩
      ⟨[2], [WStatus.busy 1], [], []⟩ :=
    PoolStep.get_ok _ [] [] 1 [2] rfl rfl
  have e3 : PoolStep openOnly2 ⟨[2], [WStatus.busy 1], [], []⟩
      ⟨[2], [WStatus.idle], [1], []⟩ :=
    PoolStep.scan _ [] [] 1 rfl
  have e4 : PoolStep openOnly2 ⟨[2], [WStatus.idle], [1], []⟩
      ⟨[2], [WStatus.committed], [1], []⟩ :=
    PoolStep.check_nonempty _ [] [] rfl (by decide)
  have e5 : PoolStep openOnly2 ⟨[2], [WStatus.committed], [1], []⟩
      ⟨[], [WStatus.busy 2], [1], []⟩ :=
    PoolStep.get_ok _ [] [] 2 [] rfl rfl
  have e6 : PoolStep openOnly2 ⟨[], [WStatus.busy 2], [1], []⟩
      ⟨[], [WStatus.idle], [1, 2], [2]⟩ :=
    PoolStep.scan _ [] [] 2 rfl
  have e7 : PoolStep openOnly2 ⟨[], [WStatus.idle], [1, 2], [2]⟩
      ⟨[], [WStatus.exited], [1, 2], [2]⟩ :=
    PoolStep.check_empty _ [] [] rfl rfl
  have hreach : Reachable openOnly2 (initPool 1 2 1) ⟨[], [WStatus.exited], [1, 2], [2]⟩ :=
    ((((((Relation.ReflTransGen.refl.tail e1).tail e2).tail e3).tail e4).tail
      e5).tail e6).tail e7
  have h := port_scanner_result_exactly_open_ports openOnly2 1 2 1
    ⟨[], [WStatus.exited], [1, 2], [2]⟩ (by decide) (by decide) hreach (by decide)
  exact ⟨h.1, h.2 2⟩

/-- C9: with `start_port > end_port` the queue starts empty: `joinReady`
already holds in the initial state (the join does not block), and in every
execution no port is ever probed and the drained result is empty. -/
theorem port_scanner_empty_range_returns_empty
    (isOpen : Nat → Bool) (start_port end_port : Nat) (num_threads : Int) (s : PoolState)
    (hba : end_port < start_port)
    (hreach : Reachable isOpen (initPool start_port end_port num_threads) s) :
    joinReady (initPool start_port end_port num_threads) = true ∧
    s.probed = [] ∧ scanResult s = [] := by
  have hports : portRange start_port end_port = [] := by
    unfold portRange
    have h0 : end_port + 1 - start_port = 0 := by omega
    rw [h0]
    rfl
  have hinv := reach_poolInv hreach (poolInv_init isOpen start_port end_port num_threads)
  have hprobed : s.probed = [] := by
    refine List.eq_nil_iff_forall_not_mem.mpr fun p hp => ?_
    have h := hinv.1 p
    rw [hports] at h
    simp only [List.count_nil] at h
    have := List.count_pos_iff.mpr hp
    omega
  have houtput : scanResult s = [] := by
    show s.output = []
    rw [hinv.2, hprobed]
    rfl
  refine ⟨?_, hprobed, houtput⟩
  simp [joinReady, initPool, hports, List.all_eq_true, List.mem_replicate, notBusy]

/-- Witness for C9: range `5..3`, two workers; the initial state itself. -/
theorem port_scanner_empty_range_returns_empty_witness :
    joinReady (initPool 5 3 2) = true ∧
    (initPool 5 3 2).probed = [] ∧ scanResult (initPool 5 3 2) = [] :=
  port_scanner_empty_range_returns_empty alwaysOpen 5 3 2 (initPool 5 3 2) (by decide)
    Relation.ReflTransGen.refl

/-- Outcome of the C-level `connect` attempted by `sock.connect_ex`: success or
one of the ordinary network failure modes. -/
inductive ConnectOutcome where
  | success
  | refused
  | timedOut
  | unreachable
  | reset
deriving DecidableEq, Repr

/-- CPython `socket.connect_ex` returns the C-level error indicator instead of
raising for errors of the `connect` call itself; with a timeout set, an
expired connect returns `EAGAIN`/`EWOULDBLOCK` rather than raising
`socket.timeout`.  The concrete errno values are the usual Linux ones; only
zero versus non-zero matters to `scan_port`. -/
def connect_ex : ConnectOutcome → Int
  | ConnectOutcome.success => 0
  | ConnectOutcome.refused => 111
  | ConnectOutcome.timedOut => 11
  | ConnectOutcome.unreachable => 113
  | ConnectOutcome.reset => 104

/-- Observable effect of one `scan_port` call: the ports it put on
`output_queue`, and whether the socket opened by the `with` block was closed
on exit. -/
structure ScanEffect where
  published : List Nat
  socketClosed : Bool
deriving DecidableEq, Repr

/-- `scan_port`: open a socket with a 0.5 s timeout, call `connect_ex`, and
publish the port exactly when the returned code is 0.  The `Except` result
models exception propagation out of the body: for every `ConnectOutcome`
(all ordinary network failures) the body takes the pure `connect_ex` path, so
it always returns `Except.ok`, and the `with` statement closes the socket on
every exit path. -/
def scan_port (port : Nat) (outcome : ConnectOutcome) : Except String ScanEffect :=
  let code := connect_ex outcome
  if code = 0 then Except.ok ⟨[port], true⟩ else Except.ok ⟨[], true⟩

/-- C4: for every port and every ordinary network outcome, `scan_port` raises
no exception, closes its socket, and publishes the port exactly when the
connection succeeded — refused, timeout, unreachable and reset all collapse
uniformly to the closed outcome (nothing published). -/
theorem scan_port_never_raises (port : Nat) (outcome : ConnectOutcome) :
    scan_port port outcome =
      Except.ok ⟨if outcome = ConnectOutcome.success then [port] else [], true⟩ := by
  cases outcome <;> rfl

/-- How `socket.gethostbyaddr` can fail: the two resolver errors named in the
source's `except` clause, and `otherError` for any other exception type — e.g.
the `ValueError` CPython raises for a host string with an embedded NUL byte
such as `"127.0.0.1\x00"`, or the `UnicodeError` raised for an over-long
label, both before any resolution is attempted. -/
inductive ResolveError where
  | herror
  | gaierror
  | otherError
deriving DecidableEq, Repr

/-- `get_host_info`: `resolution` is the outcome of
`socket.gethostbyaddr(host)` (the resolved `(hostname, aliaslist)` on success,
the raised exception otherwise).  The source catches exactly
`(socket.herror, socket.gaierror)` and turns them into the sentinel
`("Unknown", [])`; any other exception propagates to the caller. -/
def get_host_info (resolution : Except ResolveError (String × List String)) :
    Except ResolveError (String × List String) :=
  match resolution with
  | Except.ok info => Except.ok info
  | Except.error ResolveError.herror => Except.ok ("Unknown", [])
  | Except.error ResolveError.gaierror => Except.ok ("Unknown", [])
  | Except.error e => Except.error e

/-- C5 counterexample: a resolution failure that is not a `herror`/`gaierror`
(e.g. the `ValueError` raised by `socket.gethostbyaddr("127.0.0.1\x00")`)
propagates out of `get_host_info` instead of collapsing to the sentinel
`("Unknown", [])`, refuting the claim that every resolution failure of any
kind yields the sentinel and never propagates. -/
theorem get_host_info_propagates_other_errors :
    get_host_info (Except.error ResolveError.otherError) =
      Except.error ResolveError.otherError ∧
    get_host_info (Except.error ResolveError.otherError) ≠
      Except.ok ("Unknown", ([] : List String)) :=
  ⟨rfl, fun h => nomatch h⟩

/-- C5 (amended): `get_host_info` returns the resolved `(hostname, aliaslist)`
on success and the sentinel `("Unknown", [])` exactly for resolution failures
raised as `socket.herror` or `socket.gaierror`; exceptions of any other type
propagate to the caller. -/
theorem get_host_info_sentinel_on_caught_errors :
    (∀ info : String × List String, get_host_info (Except.ok info) = Except.ok info) ∧
    get_host_info (Except.error ResolveError.herror) = Except.ok ("Unknown", []) ∧
    get_host_info (Except.error ResolveError.gaierror) = Except.ok ("Unknown", []) ∧
    get_host_info (Except.error ResolveError.otherError) =
      Except.error ResolveError.otherError :=
  ⟨fun _ => rfl, rfl, rfl, rfl⟩

/-- Outcome of the `subprocess.run(["ping", ...])` call: either the command
completed with some exit code, or the call itself raised (missing binary,
permission error, ...). -/
inductive PingResult where
  | completed (returncode : Int)
  | raised
deriving DecidableEq, Repr

/-- The argument vector built by `is_host_online`: `-n 1` on Windows,
`-c 1` elsewhere. -/
def ping_args (platformName host : String) : List String :=
  if platformName = "Windows" then ["ping", "-n", "1", host]
  else ["ping", "-c", "1", host]

/-- `is_host_online`: run one ping and report `returncode == 0`; the bare
`except Exception` turns every raised error into `False`, so the function is
total (never propagates). -/
def is_host_online (platformName host : String) (run : List String → PingResult) : Bool :=
  match run (ping_args platformName host) with
  | PingResult.completed rc => rc == 0
  | PingResult.raised => false

/-- C7: `is_host_online` returns `true` iff the single ping completed with
exit code 0; every other outcome — non-zero exit or any raised error — yields
`false`, and the function is total, so no exception ever propagates. -/
theorem is_host_online_iff_exit_zero (platformName host : String)
    (run : List String → PingResult) :
    is_host_online platformName host run = true ↔
      run (ping_args platformName host) = PingResult.completed 0 := by
  unfold is_host_online
  cases hr : run (ping_args platformName host) with
  | completed rc => simp [beq_iff_eq]
  | raised => simp

/-- A JSON value as used in the per-host record: a string, an array of
strings, or an array of integers. -/
inductive JVal where
  | jstr (s : String)
  | jstrList (l : List String)
  | jnatList (l : List Nat)
deriving DecidableEq, Repr

/-- The per-host dict built by `scan_from_file`, with its literal keys:
`{"State": state, "Hostname": hostname, "Alias": alias, "Open Ports":
open_ports}`. -/
def mkRecord (state hostname : String) (aliases : List String)
    (open_ports : List Nat) : List (String × JVal) :=
  [("State", JVal.jstr state), ("Hostname", JVal.jstr hostname),
   ("Alias", JVal.jstrList aliases), ("Open Ports", JVal.jnatList open_ports)]

/-- Python-dict assignment `d[k] = v`: update in place when the key exists
(keeping its original position), otherwise append. -/
def dictInsert {α : Type} (d : List (String × α)) (k : String) (v : α) :
    List (String × α) :=
  match d with
  | [] => [(k, v)]
  | (k₁, v₁) :: rest =>
      if k₁ = k then (k, v) :: rest else (k₁, v₁) :: dictInsert rest k v

/-- The `for host in host_list` loop of `scan_from_file`.  The collaborators
are oracles indexed by the loop iteration `i` (two scans of the same host may
observe a different network): `ping i h` is the result of `is_host_online`
(total, by C7), `resolve i h` the outcome of `socket.gethostbyaddr`, and
`scanPorts i h` the list returned by `port_scanner` (its termination needs a
positive thread count, cf. C1).  Accumulators: the `results` dict, the list of
`port_scanner` invocations `(iteration, host)`, and the hosts processed so
far in order.  A propagating exception from `get_host_info` aborts the loop
as `Except.error`. -/
def scanLoop (ping : Nat → String → Bool)
    (resolve : Nat → String → Except ResolveError (String × List String))
    (scanPorts : Nat → String → List Nat) :
    Nat → List String → List (String × List (String × JVal)) → List (Nat × String) →
    List String →
    Except ResolveError
      (List (String × List (String × JVal)) × List (Nat × String) × List String)
  | _, [], results, scanCalls, processed => Except.ok (results, scanCalls, processed)
  | i, host :: rest, results, scanCalls, processed =>
    match get_host_info (resolve i host) with
    | Except.error e => Except.error e
    | Except.ok (hostname, hostAliases) =>
        scanLoop ping resolve scanPorts (i + 1) rest
          (dictInsert results host
            (mkRecord (if ping i host then "Online" else "Offline") hostname hostAliases
              (if ping i host then scanPorts i host else [])))
          (scanCalls ++ (if ping i host then [(i, host)] else []))
          (processed ++ [host])

/-- Everything `scan_from_file` did: the final `results` dict, every
`port_scanner` invocation, the hosts processed in order, and the payload of
each `json.dump` call on the output sink. -/
structure BatchOutcome where
  results : List (String × List (String × JVal))
  scanCalls : List (Nat × String)
  processed : List String
  sinkWrites : List (List (String × List (String × JVal)))
deriving DecidableEq, Repr

/-- `scan_from_file`: run the host loop starting from an empty dict, then hand
the complete `results` to the single `json.dump` call.  (The source's
`except IOError` around the write only affects persistence, not the in-memory
report or the single hand-off attempt.) -/
def scan_from_file (ping : Nat → String → Bool)
    (resolve : Nat → String → Except ResolveError (String × List String))
    (scanPorts : Nat → String → List Nat) (host_list : List String) :
    Except ResolveError BatchOutcome :=
  match scanLoop ping resolve scanPorts 0 host_list [] [] [] with
  | Except.error e => Except.error e
  | Except.ok (results, scanCalls, processed) =>
      Except.ok ⟨results, scanCalls, processed, [results]⟩

theorem mem_dictInsert {α : Type} {d : List (String × α)} {k : String} {v : α}
    {kv : String × α} (h : kv ∈ dictInsert d k v) : kv ∈ d ∨ kv = (k, v) := by
  induction d with
  | nil =>
      simp [dictInsert] at h
      exact Or.inr h
  | cons hd tl ih =>
      obtain ⟨k₁, v₁⟩ := hd
      by_cases hk : k₁ = k
      · rw [dictInsert, if_pos hk] at h
        rcases List.mem_cons.mp h with h1 | h1
        · exact Or.inr h1
        · exact Or.inl (List.mem_cons_of_mem _ h1)
      · rw [dictInsert, if_neg hk] at h
        rcases List.mem_cons.mp h with rfl | h1
        · exact Or.inl (List.mem_cons_self _ _)
        · rcases ih h1 with h2 | h2
          · exact Or.inl (List.mem_cons_of_mem _ h2)
          · exact Or.inr h2

theorem mem_snd_dictInsert {α : Type} {d : List (String × α)} {k : String} {v rec : α}
    (h : rec ∈ (dictInsert d k v).map Prod.snd) :
    rec ∈ d.map Prod.snd ∨ rec = v := by
  obtain ⟨⟨k₀, v₀⟩, hmem, heq⟩ := List.mem_map.mp h
  rcases mem_dictInsert hmem with h1 | h1
  · exact Or.inl (heq ▸ List.mem_map_of_mem Prod.snd h1)
  · injection h1 with hk2 hv2
    subst hk2
    subst hv2
    exact Or.inr heq.symm

theorem dictInsert_of_not_mem {α : Type} {d : List (String × α)} {k : String} (v : α)
    (h : k ∉ d.map Prod.fst) : dictInsert d k v = d ++ [(k, v)] := by
  induction d with
  | nil => rfl
  | cons hd tl ih =>
      obtain ⟨k₁, v₁⟩ := hd
      have hne : k₁ ≠ k := fun he => h (by simp [he])
      have htl : k ∉ tl.map Prod.fst := fun hm => h (by simp [hm])
      rw [dictInsert, if_neg hne, ih htl]
      rfl

/-- A record as assembled by the loop body: it is a `mkRecord`, its state is
one of the two literals, and an offline state forces an empty port list. -/
def WellFormedRecord (rec : List (String × JVal)) : Prop :=
  ∃ st hn al op, rec = mkRecord st hn al op ∧
    (st = "Online" ∨ st = "Offline") ∧ (st = "Offline" → op = [])

theorem scanLoop_spec (ping : Nat → String → Bool)
    (resolve : Nat → String → Except ResolveError (String × List String))
    (scanPorts : Nat → String → List Nat) (hosts : List String) :
    ∀ (i : Nat) results scanCalls processed r c pr,
    scanLoop ping resolve scanPorts i hosts results scanCalls processed
      = Except.ok (r, c, pr) →
    pr = processed ++ hosts ∧
    (∀ x ∈ c, x ∈ scanCalls ∨ ping x.1 x.2 = true) ∧
    (∀ rec ∈ r.map Prod.snd, rec ∈ results.map Prod.snd ∨ WellFormedRecord rec) := by
  induction hosts with
  | nil =>
      intro i results scanCalls processed r c pr hok
      simp [scanLoop] at hok
      obtain ⟨h1, h2, h3⟩ := hok
      subst h1; subst h2; subst h3
      exact ⟨by simp, fun x hx => Or.inl hx, fun rec hrec => Or.inl hrec⟩
  | cons host rest ih =>
      intro i results scanCalls processed r c pr hok
      rw [scanLoop] at hok
      cases hinfo : get_host_info (resolve i host) with
      | error e => rw [hinfo] at hok; exact absurd hok (by simp)
      | ok info =>
          obtain ⟨hostname, hostAliases⟩ := info
          rw [hinfo] at hok
          simp only at hok
          obtain ⟨hpr, hsc, hrec⟩ := ih (i + 1) _ _ _ r c pr hok
          refine ⟨by rw [hpr]; simp, ?_, ?_⟩
          · intro x hx
            rcases hsc x hx with hmem | hping
            · rcases List.mem_append.mp hmem with h1 | h2
              · exact Or.inl h1
              · by_cases hpg : ping i host
                · right
                  simp [hpg] at h2
                  rw [h2]
                  exact hpg
                · simp [hpg] at h2
            · exact Or.inr hping
          · intro rec hr
            rcases hrec rec hr with hin | hwf
            · rcases mem_snd_dictInsert hin with h1 | h1
              · exact Or.inl h1
              · refine Or.inr ⟨_, _, _, _, h1, ?_, ?_⟩
                · by_cases hpg : ping i host <;> simp [hpg]
                · by_cases hpg : ping i host <;> simp [hpg]
            · exact Or.inr hwf

theorem scanLoop_keys (ping : Nat → String → Bool)
    (resolve : Nat → String → Except ResolveError (String × List String))
    (scanPorts : Nat → String → List Nat) (hosts : List String) :
    ∀ (i : Nat) results scanCalls processed r c pr,
    scanLoop ping resolve scanPorts i hosts results scanCalls processed
      = Except.ok (r, c, pr) →
    hosts.Nodup → (∀ h ∈ hosts, h ∉ results.map Prod.fst) →
    r.map Prod.fst = results.map Prod.fst ++ hosts := by
  induction hosts with
  | nil =>
      intro i results scanCalls processed r c pr hok _ _
      simp [scanLoop] at hok
      obtain ⟨h1, _, _⟩ := hok
      subst h1
      simp
  | cons host rest ih =>
      intro i results scanCalls processed r c pr hok hnd hdisj
      rw [scanLoop] at hok
      cases hinfo : get_host_info (resolve i host) with
      | error e => rw [hinfo] at hok; exact absurd hok (by simp)
      | ok info =>
          obtain ⟨hostname, hostAliases⟩ := info
          rw [hinfo] at hok
          simp only at hok
          rw [dictInsert_of_not_mem _ (hdisj host (by simp))] at hok
          have hstep := ih (i + 1) _ _ _ r c pr hok (List.Nodup.of_cons hnd) ?_
          · rw [hstep]
            simp
          · intro h hmem
            simp only [List.map_append, List.map_cons, List.map_nil]
            rw [List.mem_append]
            rintro (h1 | h2)
            · exact hdisj h (by simp [hmem]) h1
            · simp at h2
              rw [h2] at hmem
              exact (List.nodup_cons.mp hnd).1 hmem

/-- C6: whenever `scan_from_file` completes, `port_scanner` was invoked only
at iterations whose host pinged online; for every occurrence of a host that
pinged offline there is no matching invocation; and every record in the
report whose `"State"` is `"Offline"` has an empty `"Open Ports"` list. -/
theorem offline_hosts_skip_port_scan (ping : Nat → String → Bool)
    (resolve : Nat → String → Except ResolveError (String × List String))
    (scanPorts : Nat → String → List Nat) (host_list : List String)
    (out : BatchOutcome)
    (hok : scan_from_file ping resolve scanPorts host_list = Except.ok out) :
    (∀ x ∈ out.scanCalls, ping x.1 x.2 = true) ∧
    (∀ i host, host_list.get? i = some host → ping i host = false →
      (i, host) ∉ out.scanCalls) ∧
    (∀ host rec, (host, rec) ∈ out.results →
      List.lookup "State" rec = some (JVal.jstr "Offline") →
      List.lookup "Open Ports" rec = some (JVal.jnatList [])) := by
  rw [scan_from_file] at hok
  cases hloop : scanLoop ping resolve scanPorts 0 host_list [] [] [] with
  | error e => rw [hloop] at hok; exact absurd hok (by simp)
  | ok res =>
      obtain ⟨r, c, pr⟩ := res
      rw [hloop] at hok
      simp only [Except.ok.injEq] at hok
      subst hok
      obtain ⟨_, hsc, hrec⟩ := scanLoop_spec ping resolve scanPorts host_list 0 [] [] [] r c pr hloop
      have hscan : ∀ x ∈ c, ping x.1 x.2 = true := by
        intro x hx
        rcases hsc x hx with h | h
        · exact absurd h (List.not_mem_nil x)
        · exact h
      refine ⟨hscan, ?_, ?_⟩
      · intro i host _ hoff hmem
        have := hscan (i, host) hmem
        simp at this
        rw [this] at hoff
        simp at hoff
      · intro host rec hmem hstate
        rcases hrec rec (by simp; exact ⟨host, hmem⟩) with h | h
        · simp at h
        · obtain ⟨st, hn, al, op, hrec_eq, _, hoffl⟩ := h
          subst hrec_eq
          simp [mkRecord, List.lookup] at hstate ⊢
          exact hoffl hstate

/-- C8: whenever `scan_from_file` completes on a duplicate-free host list, the
hosts were processed in input order, the report has exactly one record per
host keyed by the host string in input order, every record is a dict with
exactly the keys `"State"` (holding `"Online"` or `"Offline"`), `"Hostname"`,
`"Alias"` and `"Open Ports"`, and the complete report is handed to the output
sink exactly once, after the loop. -/
theorem batch_report_in_order_single_write (ping : Nat → String → Bool)
    (resolve : Nat → String → Except ResolveError (String × List String))
    (scanPorts : Nat → String → List Nat) (host_list : List String)
    (out : BatchOutcome) (hnd : host_list.Nodup)
    (hok : scan_from_file ping resolve scanPorts host_list = Except.ok out) :
    out.processed = host_list ∧
    out.results.map Prod.fst = host_list ∧
    (∀ rec ∈ out.results.map Prod.snd,
      rec.map Prod.fst = ["State", "Hostname", "Alias", "Open Ports"] ∧
      (List.lookup "State" rec = some (JVal.jstr "Online") ∨
       List.lookup "State" rec = some (JVal.jstr "Offline"))) ∧
    out.sinkWrites = [out.results] := by
  rw [scan_from_file] at hok
  cases hloop : scanLoop ping resolve scanPorts 0 host_list [] [] [] with
  | error e => rw [hloop] at hok; exact absurd hok (by simp)
  | ok res =>
      obtain ⟨r, c, pr⟩ := res
      rw [hloop] at hok
      simp only [Except.ok.injEq] at hok
      subst hok
      obtain ⟨hpr, _, hrec⟩ := scanLoop_spec ping resolve scanPorts host_list 0 [] [] [] r c pr hloop
      have hkeys := scanLoop_keys ping resolve scanPorts host_list 0 [] [] [] r c pr hloop hnd
        (by simp)
      refine ⟨by simpa using hpr, by simpa using hkeys, ?_, rfl⟩
      intro rec hr
      rcases hrec rec hr with h | h
      · simp at h
      · obtain ⟨st, hn, al, op, hrec_eq, hst, _⟩ := h
        subst hrec_eq
        constructor
        · simp [mkRecord]
        · rcases hst with h | h <;> subst h <;> simp [mkRecord, List.lookup]

/-- Concrete liveness oracle: only `10.0.0.1` pings online. -/
def pingA : Nat → String → Bool := fun _ host => host == "10.0.0.1"

/-- Concrete resolver oracle: every reverse lookup fails with `herror`. -/
def resolveA : Nat → String → Except ResolveError (String × List String) :=
  fun _ _ => Except.error ResolveError.herror

/-- Concrete pool oracle: every invoked scan reports ports 22 and 80 open. -/
def scanPortsA : Nat → String → List Nat := fun _ _ => [22, 80]

/-- The outcome of `scan_from_file` on `["10.0.0.1", "10.0.0.2"]` under the
`A` oracles. -/
def batchA : BatchOutcome :=
  ⟨[("10.0.0.1", mkRecord "Online" "Unknown" [] [22, 80]),
    ("10.0.0.2", mkRecord "Offline" "Unknown" [] [])],
   [(0, "10.0.0.1")],
   ["10.0.0.1", "10.0.0.2"],
   [[("10.0.0.1", mkRecord "Online" "Unknown" [] [22, 80]),
     ("10.0.0.2", mkRecord "Offline" "Unknown" [] [])]]⟩

/-- Witness for C6: the offline host `10.0.0.2` is never handed to
`port_scanner` and its record has an empty open-ports list. -/
theorem offline_hosts_skip_port_scan_witness :
    (1, "10.0.0.2") ∉ batchA.scanCalls ∧
    List.lookup "Open Ports" (mkRecord "Offline" "Unknown" [] []) =
      some (JVal.jnatList []) := by
  have h := offline_hosts_skip_port_scan pingA resolveA scanPortsA
    ["10.0.0.1", "10.0.0.2"] batchA rfl
  refine ⟨h.2.1 1 "10.0.0.2" rfl rfl, ?_⟩
  exact h.2.2 "10.0.0.2" (mkRecord "Offline" "Unknown" [] []) (by decide) (by decide)

/-- Witness for C8 on the same concrete batch: hosts processed in input
order and a single sink write of the complete report. -/
theorem batch_report_in_order_single_write_witness :
    batchA.processed = ["10.0.0.1", "10.0.0.2"] ∧
    batchA.results.map Prod.fst = ["10.0.0.1", "10.0.0.2"] ∧
    batchA.sinkWrites = [batchA.results] := by
  have h := batch_report_in_order_single_write pingA resolveA scanPortsA
    ["10.0.0.1", "10.0.0.2"] batchA (by decide) rfl
  exact ⟨h.1, h.2.1, h.2.2.2⟩

theorem lookup_dictInsert_self {α : Type} (d : List (String × α)) (k : String) (v : α) :
    List.lookup k (dictInsert d k v) = some v := by
  induction d with
  | nil => simp [dictInsert, List.lookup]
  | cons hd tl ih =>
      obtain ⟨k₁, v₁⟩ := hd
      by_cases hk : k₁ = k
      · rw [dictInsert, if_pos hk]
        simp [List.lookup]
      · rw [dictInsert, if_neg hk]
        have hbeq : (k == k₁) = false := by
          simp [beq_iff_eq]
          exact fun he => hk he.symm
        simp [List.lookup, hbeq, ih]

theorem lookup_dictInsert_ne {α : Type} (d : List (String × α)) {h k : String} (v : α)
    (hne : h ≠ k) : List.lookup h (dictInsert d k v) = List.lookup h d := by
  have hbk : (h == k) = false := by simp [beq_iff_eq, hne]
  induction d with
  | nil => simp [dictInsert, List.lookup, hbk]
  | cons hd tl ih =>
      obtain ⟨k₁, v₁⟩ := hd
      by_cases hk : k₁ = k
      · subst hk
        have hbeq : (h == k₁) = false := by simp [beq_iff_eq, hne]
        rw [dictInsert, if_pos rfl]
        simp [List.lookup, hbeq]
      · rw [dictInsert, if_neg hk]
        cases hbe : h == k₁ <;> simp [List.lookup, hbe, ih]

theorem keys_dictInsert {α : Type} (d : List (String × α)) (k : String) (v : α) :
    (dictInsert d k v).map Prod.fst =
      if k ∈ d.map Prod.fst then d.map Prod.fst else d.map Prod.fst ++ [k] := by
  induction d with
  | nil => simp [dictInsert]
  | cons hd tl ih =>
      obtain ⟨k₁, v₁⟩ := hd
      by_cases hk : k₁ = k
      · subst hk
        rw [dictInsert, if_pos rfl]
        simp
      · rw [dictInsert, if_neg hk]
        have hke : ¬k = k₁ := fun he => hk he.symm
        by_cases hmem : k ∈ tl.map Prod.fst
        · simp [ih, hmem, hke]
        · simp [ih, hmem, hke]

theorem scanLoop_keys_mem (ping : Nat → String → Bool)
    (resolve : Nat → String → Except ResolveError (String × List String))
    (scanPorts : Nat → String → List Nat) (hosts : List String) :
    ∀ (i : Nat) results scanCalls processed r c pr,
    scanLoop ping resolve scanPorts i hosts results scanCalls processed
      = Except.ok (r, c, pr) →
    (∀ h, h ∈ r.map Prod.fst ↔ h ∈ results.map Prod.fst ∨ h ∈ hosts) ∧
    ((results.map Prod.fst).Nodup → (r.map Prod.fst).Nodup) := by
  induction hosts with
  | nil =>
      intro i results scanCalls processed r c pr hok
      simp [scanLoop] at hok
      obtain ⟨h1, _, _⟩ := hok
      subst h1
      exact ⟨fun h => by simp, fun hn => hn⟩
  | cons host rest ih =>
      intro i results scanCalls processed r c pr hok
      rw [scanLoop] at hok
      cases hinfo : get_host_info (resolve i host) with
      | error e => rw [hinfo] at hok; exact absurd hok (by simp)
      | ok info =>
          obtain ⟨hostname, hostAliases⟩ := info
          rw [hinfo] at hok
          simp only at hok
          obtain ⟨hm, hnd⟩ := ih (i + 1) _ _ _ r c pr hok
          have hkeys := keys_dictInsert results host
            (mkRecord (if ping i host then "Online" else "Offline") hostname hostAliases
              (if ping i host then scanPorts i host else []))
          constructor
          · intro h
            rw [hm h, hkeys]
            by_cases hmem : host ∈ results.map Prod.fst
            · simp only [if_pos hmem, List.mem_cons]
              constructor
              · rintro (h1 | h1)
                · exact Or.inl h1
                · exact Or.inr (Or.inr h1)
              · rintro (h1 | h1 | h1)
                · exact Or.inl h1
                · exact Or.inl (by rw [h1]; exact hmem)
                · exact Or.inr h1
            · simp only [if_neg hmem, List.mem_append, List.mem_cons,
                List.mem_singleton]
              tauto
          · intro hnod
            apply hnd
            rw [hkeys]
            by_cases hmem : host ∈ results.map Prod.fst
            · rwa [if_pos hmem]
            · rw [if_neg hmem, List.nodup_append]
              refine ⟨hnod, List.nodup_singleton _, ?_⟩
              intro a ha hb
              simp at hb
              subst hb
              exact hmem ha

theorem scanLoop_scanCalls (ping : Nat → String → Bool)
    (resolve : Nat → String → Except ResolveError (String × List String))
    (scanPorts : Nat → String → List Nat) (hosts : List String) :
    ∀ (i : Nat) results scanCalls processed r c pr,
    scanLoop ping resolve scanPorts i hosts results scanCalls processed
      = Except.ok (r, c, pr) →
    ∀ m h, ((m, h) ∈ c ↔ (m, h) ∈ scanCalls ∨
      (∃ j, hosts.get? j = some h ∧ m = i + j ∧ ping m h = true)) := by
  induction hosts with
  | nil =>
      intro i results scanCalls processed r c pr hok m h
      simp [scanLoop] at hok
      obtain ⟨_, h2, _⟩ := hok
      subst h2
      simp
  | cons host rest ih =>
      intro i results scanCalls processed r c pr hok m h
      rw [scanLoop] at hok
      cases hinfo : get_host_info (resolve i host) with
      | error e => rw [hinfo] at hok; exact absurd hok (by simp)
      | ok info =>
          obtain ⟨hostname, hostAliases⟩ := info
          rw [hinfo] at hok
          simp only at hok
          rw [ih (i + 1) _ _ _ r c pr hok m h]
          constructor
          · rintro (hmem | ⟨j, hj, hm, hp⟩)
            · rcases List.mem_append.mp hmem with h1 | h2
              · exact Or.inl h1
              · by_cases hpg : ping i host
                · simp [hpg] at h2
                  obtain ⟨hm, hh⟩ := h2
                  subst hm
                  subst hh
                  exact Or.inr ⟨0, rfl, by omega, hpg⟩
                · simp [hpg] at h2
            · exact Or.inr ⟨j + 1, by simpa using hj, by omega, hp⟩
          · rintro (hmem | ⟨j, hj, hm, hp⟩)
            · exact Or.inl (List.mem_append.mpr (Or.inl hmem))
            · cases j with
              | zero =>
                  have hh : host = h := by simpa using hj
                  have hm2 : m = i := by omega
                  subst hh
                  subst hm2
                  left
                  refine List.mem_append.mpr (Or.inr ?_)
                  simp [hp]
              | succ j₁ =>
                  exact Or.inr ⟨j₁, by simpa using hj, by omega, hp⟩

theorem scanLoop_lookup (ping : Nat → String → Bool)
    (resolve : Nat → String → Except ResolveError (String × List String))
    (scanPorts : Nat → String → List Nat) (hosts : List String) :
    ∀ (i : Nat) results scanCalls processed r c pr,
    scanLoop ping resolve scanPorts i hosts results scanCalls processed
      = Except.ok (r, c, pr) →
    ∀ h : String,
    (h ∉ hosts → List.lookup h r = List.lookup h results) ∧
    (∀ j hn al, hosts.get? j = some h →
      (∀ k, j < k → hosts.get? k ≠ some h) →
      get_host_info (resolve (i + j) h) = Except.ok (hn, al) →
      List.lookup h r =
        some (mkRecord (if ping (i + j) h then "Online" else "Offline") hn al
          (if ping (i + j) h then scanPorts (i + j) h else []))) := by
  induction hosts with
  | nil =>
      intro i results scanCalls processed r c pr hok h
      simp [scanLoop] at hok
      obtain ⟨h1, _, _⟩ := hok
      subst h1
      exact ⟨fun _ => rfl, fun j hn al hj => by simp at hj⟩
  | cons host rest ih =>
      intro i results scanCalls processed r c pr hok h
      rw [scanLoop] at hok
      cases hinfo : get_host_info (resolve i host) with
      | error e => rw [hinfo] at hok; exact absurd hok (by simp)
      | ok info =>
          obtain ⟨hostname, hostAliases⟩ := info
          rw [hinfo] at hok
          simp only at hok
          have hih := ih (i + 1) _ _ _ r c pr hok h
          constructor
          · intro hnotmem
            have hne : h ≠ host := fun he => hnotmem (by simp [he])
            have hnr : h ∉ rest := fun hmr => hnotmem (by simp [hmr])
            rw [hih.1 hnr, lookup_dictInsert_ne _ _ hne]
          · intro j hn al hj hlast hres
            cases j with
            | zero =>
                have hh : host = h := by simpa using hj
                subst hh
                have hnr : host ∉ rest := by
                  intro hmr
                  obtain ⟨k, hk⟩ := List.mem_iff_get?.mp hmr
                  exact hlast (k + 1) (by omega) (by simpa using hk)
                rw [hih.1 hnr, lookup_dictInsert_self]
                simp only [Nat.add_zero] at hres ⊢
                rw [hinfo] at hres
                injection hres with hpair
                injection hpair with hhn hal
                subst hhn
                subst hal
                rfl
            | succ j₁ =>
                have hj2 : rest.get? j₁ = some h := by simpa using hj
                have hlast2 : ∀ k, j₁ < k → rest.get? k ≠ some h := by
                  intro k hk
                  have := hlast (k + 1) (by omega)
                  simpa using this
                have harith : i + (j₁ + 1) = (i + 1) + j₁ := by omega
                rw [harith] at hres ⊢
                exact hih.2 j₁ hn al hj2 hlast2 hres

/-- C10: for every input host list in which some host string occurs more than
once, the host is processed once per occurrence (and port-scanned at exactly
the occurrences that pinged online), yet the final report holds a single
entry for it, and that entry is the record assembled at the last occurrence's
iteration — earlier occurrences' results are silently overwritten by the dict
assignment. -/
theorem duplicate_host_keeps_last_scan (ping : Nat → String → Bool)
    (resolve : Nat → String → Except ResolveError (String × List String))
    (scanPorts : Nat → String → List Nat) (host_list : List String)
    (host : String) (out : BatchOutcome)
    (hdup : 1 < host_list.count host)
    (hok : scan_from_file ping resolve scanPorts host_list = Except.ok out) :
    out.processed = host_list ∧
    (∀ m, (m, host) ∈ out.scanCalls ↔
      (host_list.get? m = some host ∧ ping m host = true)) ∧
    (out.results.map Prod.fst).count host = 1 ∧
    (∀ j hn al, host_list.get? j = some host →
      (∀ k, j < k → host_list.get? k ≠ some host) →
      get_host_info (resolve j host) = Except.ok (hn, al) →
      List.lookup host out.results =
        some (mkRecord (if ping j host then "Online" else "Offline") hn al
          (if ping j host then scanPorts j host else []))) := by
  rw [scan_from_file] at hok
  cases hloop : scanLoop ping resolve scanPorts 0 host_list [] [] [] with
  | error e => rw [hloop] at hok; exact absurd hok (by simp)
  | ok res =>
      obtain ⟨r, c, pr⟩ := res
      rw [hloop] at hok
      simp only [Except.ok.injEq] at hok
      subst hok
      refine ⟨?_, ?_, ?_, ?_⟩
      · have := (scanLoop_spec ping resolve scanPorts host_list 0 [] [] [] r c pr hloop).1
        simpa using this
      · intro m
        rw [scanLoop_scanCalls ping resolve scanPorts host_list 0 [] [] [] r c pr hloop
          m host]
        simp only [List.not_mem_nil, false_or]
        constructor
        · rintro ⟨j, hj, hm, hp⟩
          have hmj : m = j := by omega
          subst hmj
          exact ⟨hj, hp⟩
        · rintro ⟨hj, hp⟩
          exact ⟨m, hj, by omega, hp⟩
      · have hkm := scanLoop_keys_mem ping resolve scanPorts host_list 0 [] [] [] r c pr hloop
        have hmem : host ∈ r.map Prod.fst := by
          rw [hkm.1 host]
          exact Or.inr (List.count_pos_iff.mp (by omega))
        exact List.count_eq_one_of_mem (hkm.2 (by simp)) hmem
      · intro j hn al hj hlast hres
        have hlk := (scanLoop_lookup ping resolve scanPorts host_list 0 [] [] [] r c pr
          hloop host).2 j hn al hj hlast (by simpa using hres)
        simpa using hlk

/-- Concrete liveness oracle for the C10 witness: everything pings online. -/
def pingC : Nat → String → Bool := fun _ _ => true

/-- Concrete resolver oracle for the C10 witness: a different hostname at
each iteration. -/
def resolveC : Nat → String → Except ResolveError (String × List String) :=
  fun i _ =>
    Except.ok (if i = 0 then "first.example"
      else if i = 1 then "second.example" else "third.example", [])

/-- Concrete pool oracle for the C10 witness: port `20 + i` open at
iteration `i`. -/
def scanPortsC : Nat → String → List Nat := fun i _ => [20 + i]

/-- The C10 witness host list: `10.0.0.1` occurs twice, with another host in
between. -/
def hostsC : List String := ["10.0.0.1", "10.0.0.2", "10.0.0.1"]

/-- The outcome of `scan_from_file` on `hostsC` under the `C` oracles. -/
def batchC : BatchOutcome :=
  ⟨[("10.0.0.1", mkRecord "Online" "third.example" [] [22]),
    ("10.0.0.2", mkRecord "Online" "second.example" [] [21])],
   [(0, "10.0.0.1"), (1, "10.0.0.2"), (2, "10.0.0.1")],
   ["10.0.0.1", "10.0.0.2", "10.0.0.1"],
   [[("10.0.0.1", mkRecord "Online" "third.example" [] [22]),
     ("10.0.0.2", mkRecord "Online" "second.example" [] [21])]]⟩

/-- Witness for C10: scanning `["10.0.0.1", "10.0.0.2", "10.0.0.1"]` — a
non-adjacent duplicate — processes all three occurrences, port-scans the
duplicated host at both of its occurrences, and keeps a single report entry
for it holding the third iteration's data (`third.example`, port 22). -/
theorem duplicate_host_keeps_last_scan_witness :
    batchC.processed = ["10.0.0.1", "10.0.0.2", "10.0.0.1"] ∧
    ((2, "10.0.0.1") ∈ batchC.scanCalls ↔
      (hostsC.get? 2 = some "10.0.0.1" ∧ pingC 2 "10.0.0.1" = true)) ∧
    (batchC.results.map Prod.fst).count "10.0.0.1" = 1 ∧
    List.lookup "10.0.0.1" batchC.results =
      some (mkRecord "Online" "third.example" [] [22]) := by
  have h := duplicate_host_keeps_last_scan pingC resolveC scanPortsC hostsC
    "10.0.0.1" batchC (by decide) rfl
  refine ⟨h.1, h.2.1 2, h.2.2.1, ?_⟩
  have hlast : ∀ k, 2 < k → hostsC.get? k ≠ some "10.0.0.1" := by
    intro k hk
    have hlen : hostsC.length ≤ k := by
      simp [hostsC]
      omega
    rw [List.get?_eq_none.mpr hlen]
    simp
  exact h.2.2.2 2 "third.example" [] rfl hlast rfl

end PortScanner
